import Mathlib

/-
Verification development for the elasticsearch-mcp repository.

The definitions below are a shallow embedding of the TypeScript source:
  - `src/tools/export-to-csv.ts` (filename generation, field discovery,
    scroll-based export loop, dotted-path field extraction, finalization)
  - `src/tools/insert-data.ts` (document validation)
  - `src/tools/delete-document.ts` (query depth validation)
  - `src/errors/handlers.ts` (error context sanitization)

Modelling conventions:
  - JSON values are modelled by `JsonVal`; numbers are modelled as integers
    (every concrete value appearing in the claims is an integer).
  - JS `undefined` is modelled as `Option.none`; JS `null` as `JsonVal.null`.
    Where the source collapses the two (both render as an empty CSV cell,
    both fail the `value === null || value === undefined` guard) the model
    collapses them to `none` and says so in a comment.
  - A JS object is a `List (String × JsonVal)` of its enumerable own keys in
    insertion order (JS object keys are unique).
  - Functions that `throw` are modelled with `Except`/`Bool`/`Option`.
-/

/-- A JSON value (documents, filter trees, mapping metadata). -/
inductive JsonVal : Type where
  | null : JsonVal
  | bool (b : Bool) : JsonVal
  | num (n : Int) : JsonVal
  | str (s : String) : JsonVal
  | arr (xs : List JsonVal) : JsonVal
  | obj (kvs : List (String × JsonVal)) : JsonVal
deriving Repr

/-- Model of JS `s.split('.')` (accumulator holds the current segment,
reversed). -/
def splitDotGo : List Char → List Char → List String
  | [], acc => [String.mk acc.reverse]
  | c :: rest, acc =>
    if c = '.' then String.mk acc.reverse :: splitDotGo rest []
    else splitDotGo rest (c :: acc)

/-- Model of JS `s.split('.')`. -/
def splitDot (s : String) : List String :=
  splitDotGo s.data []

/-- Model of JS `s.startsWith(p)`. -/
def strStartsWith (s p : String) : Bool :=
  p.data.isPrefixOf s.data

/-- Model of JS `s.endsWith(p)`. -/
def strEndsWith (s p : String) : Bool :=
  p.data.isSuffixOf s.data

/-- Substring containment on character lists (used to model JS
`s.includes(sub)`, which is case-sensitive). -/
def charsContain (needle : List Char) : List Char → Bool
  | [] => needle.isPrefixOf []
  | c :: rest => needle.isPrefixOf (c :: rest) || charsContain needle rest

/-- Model of JS `s.includes(sub)`. -/
def strIncludes (s sub : String) : Bool :=
  charsContain sub.data s.data

/-- Model of JS `s.toLowerCase()` (ASCII-adequate for the keys involved). -/
def strToLower (s : String) : String :=
  String.mk (s.data.map Char.toLower)

/-- JS property access `o[k]` on an object: `none` models `undefined`. -/
def getKey : List (String × JsonVal) → String → Option JsonVal
  | [], _ => none
  | (k, v) :: rest, key => if k = key then some v else getKey rest key

mutual
/-- Model of `JSON.stringify` (string escaping elided: no string appearing
in this development contains a quote or backslash). -/
def jsonStringify : JsonVal → String
  | .null => "null"
  | .bool b => if b then "true" else "false"
  | .num n => toString n
  | .str s => "\"" ++ s ++ "\""
  | .arr xs => "[" ++ jsonStringifyArr xs ++ "]"
  | .obj kvs => "\x7b" ++ jsonStringifyObj kvs ++ "\x7d"

/-- Comma-joined stringification of an array's elements. -/
def jsonStringifyArr : List JsonVal → String
  | [] => ""
  | [v] => jsonStringify v
  | v :: rest => jsonStringify v ++ "," ++ jsonStringifyArr rest

/-- Comma-joined stringification of an object's key/value pairs. -/
def jsonStringifyObj : List (String × JsonVal) → String
  | [] => ""
  | [(k, v)] => "\"" ++ k ++ "\":" ++ jsonStringify v
  | (k, v) :: rest => "\"" ++ k ++ "\":" ++ jsonStringify v ++ "," ++ jsonStringifyObj rest
end

/-- The traversal loop of `extractFieldValue` (export-to-csv.ts:320-334):
walks the already-split dotted path. `none` models JS null/undefined (the
code returns `null` for a null/undefined value mid-path, and property
access on the way yields `undefined` for an absent key; both render as an
empty CSV cell and both are collapsed to `none` here). A non-object
(scalar or array) met mid-path also yields `null`. -/
def extractGo : Option JsonVal → List String → Option JsonVal
  | v, [] => v
  | none, _ :: _ => none
  | some .null, _ :: _ => none
  | some (.obj kvs), part :: rest => extractGo (getKey kvs part) rest
  | some _, _ :: _ => none

/-- `extractFieldValue(source, fieldPath)` (export-to-csv.ts:320-342):
split the path on `.`, traverse, then stringify a composite result
(`typeof value === 'object' && value !== null`). -/
def extractFieldValue (source : List (String × JsonVal)) (fieldPath : String) :
    Option JsonVal :=
  match extractGo (some (.obj source)) (splitDot fieldPath) with
  | some (.obj kvs) => some (.str (jsonStringify (.obj kvs)))
  | some (.arr xs) => some (.str (jsonStringify (.arr xs)))
  | r => r

/-- Model of how csv-writer renders one cell: null/undefined render empty,
scalars render via String(value). -/
def renderCell : Option JsonVal → String
  | none => ""
  | some .null => ""
  | some (.bool b) => if b then "true" else "false"
  | some (.num n) => toString n
  | some (.str s) => s
  | some v => jsonStringify v

/-- One CSV data row for a record, under the resolved field list and the
default comma delimiter. -/
def renderRow (source : List (String × JsonVal)) (fields : List String) : String :=
  String.intercalate "," (fields.map fun f => renderCell (extractFieldValue source f))

/-
Scroll-based export loop (export-to-csv.ts:239-318).

The Elasticsearch client and the CSV writer are collaborators; a run is
modelled against a script: `conts j` is the outcome of the j-th
`client.scroll` continuation call (`Except.error` = the call throws), and
`writerFails b` says whether the b-th `writer.writeRecords` call throws.
The initial `client.search` response is given (the claims under proof all
concern behaviour after a successful open). The returned event list
records the client/writer calls issued, in order.
-/

/-- One search/scroll response: the `_source` record of each hit, and the
optional `_scroll_id`. -/
structure SearchResponse where
  hits : List (List (String × JsonVal))
  scrollId : Option String

/-- A client/writer call issued by the export loop. `writeBatch n` is a
`writer.writeRecords` call carrying one row per hit of the current batch
(`n` rows); `scrollContinue` is a `client.scroll` call; `clearScroll` is a
`client.clearScroll` call. -/
inductive ExportEvent : Type where
  | writeBatch (rows : Nat) : ExportEvent
  | scrollContinue (id : String) : ExportEvent
  | clearScroll (id : String) : ExportEvent
deriving Repr, DecidableEq

/-- `const maxRows = args.maxRows || 1000000` (JS `||`: 0 is falsy). -/
def effectiveMaxRows : Option Nat → Nat
  | none => 1000000
  | some n => if n = 0 then 1000000 else n

/-- The `while` loop of `exportDataWithScroll` (export-to-csv.ts:269-304),
entered with the current response. Returns the issued events and
`some (totalExported, leavingResponse)` on normal loop exit, or `none`
when an error thrown by the writer or by a scroll call escapes the loop
(there is no try/finally around it). `i` counts scroll calls, `b` counts
write calls. -/
def scrollLoop (conts : Nat → Except Unit SearchResponse) (writerFails : Nat → Bool)
    (resp : SearchResponse) (i b total maxRows : Nat) :
    List ExportEvent × Option (Nat × SearchResponse) :=
  if h : 0 < resp.hits.length ∧ total < maxRows then
    if writerFails b then ([.writeBatch resp.hits.length], none)
    else
      let total' := total + resp.hits.length
      if h2 : maxRows ≤ total' then ([.writeBatch resp.hits.length], some (total', resp))
      else
        match resp.scrollId with
        | some sid =>
          match conts i with
          | .error _ => ([.writeBatch resp.hits.length, .scrollContinue sid], none)
          | .ok resp2 =>
            let r := scrollLoop conts writerFails resp2 (i + 1) (b + 1) total' maxRows
            (.writeBatch resp.hits.length :: .scrollContinue sid :: r.1, r.2)
        | none => ([.writeBatch resp.hits.length], some (total', resp))
  else ([], some (total, resp))
termination_by maxRows - total
decreasing_by omega

/-- `exportDataWithScroll` (export-to-csv.ts:239-318): run the loop from
the initial response, then — only on normal loop exit — clear the scroll
if the leaving response carries a scroll id (a clearScroll failure is
caught and swallowed, so it does not affect the returned total). `none`
models the function throwing. -/
def exportDataWithScroll (conts : Nat → Except Unit SearchResponse)
    (writerFails : Nat → Bool) (initResp : SearchResponse)
    (maxRowsArg : Option Nat) : List ExportEvent × Option Nat :=
  let maxRows := effectiveMaxRows maxRowsArg
  match scrollLoop conts writerFails initResp 0 0 0 maxRows with
  | (evs, none) => (evs, none)
  | (evs, some (total, lastResp)) =>
    match lastResp.scrollId with
    | some sid => (evs ++ [.clearScroll sid], some total)
    | none => (evs, some total)

/-- Number of clearScroll (cursor release) attempts in a trace. -/
def countClear (evs : List ExportEvent) : Nat :=
  evs.countP fun e => match e with | .clearScroll _ => true | _ => false

/-- Number of scroll continuation requests in a trace. -/
def countScrollCont (evs : List ExportEvent) : Nat :=
  evs.countP fun e => match e with | .scrollContinue _ => true | _ => false

/-- Total rows handed to the writer over a trace. -/
def sumWrites : List ExportEvent → Nat
  | [] => 0
  | .writeBatch n :: rest => n + sumWrites rest
  | _ :: rest => sumWrites rest

theorem countClear_cons (e : ExportEvent) (evs : List ExportEvent) :
    countClear (e :: evs) =
      countClear evs + (match e with | .clearScroll _ => 1 | _ => 0) := by
  cases e <;> simp [countClear, List.countP_cons]

theorem countClear_append (l1 l2 : List ExportEvent) :
    countClear (l1 ++ l2) = countClear l1 + countClear l2 := by
  simp [countClear, List.countP_append]

theorem countClear_nil : countClear [] = 0 := rfl

theorem sumWrites_append (l1 l2 : List ExportEvent) :
    sumWrites (l1 ++ l2) = sumWrites l1 + sumWrites l2 := by
  induction l1 with
  | nil => simp [sumWrites]
  | cons e rest ih => cases e <;> simp [sumWrites, ih, Nat.add_assoc]

theorem scrollLoop_no_clear (conts : Nat → Except Unit SearchResponse)
    (writerFails : Nat → Bool) (resp : SearchResponse) (i b total maxRows : Nat) :
    countClear (scrollLoop conts writerFails resp i b total maxRows).1 = 0 := by
  induction resp, i, b, total, maxRows using scrollLoop.induct conts writerFails with
  | case1 resp i b total maxRows h hw =>
    rw [scrollLoop.eq_def]
    simp only [dif_pos h, hw, if_true]
    simp [countClear_cons, countClear_nil]
  | case2 resp i b total maxRows h hw tot h2 =>
    rw [scrollLoop.eq_def]
    simp only [dif_pos h, Bool.not_eq_true] at *
    simp only [hw, if_false, dif_pos h2]
    simp [countClear_cons, countClear_nil]
  | case3 resp i b total maxRows h hw tot h2 sid hsid u hc =>
    rw [scrollLoop.eq_def]
    simp only [dif_pos h, Bool.not_eq_true] at *
    simp only [hw, if_false, dif_neg h2, hsid, hc]
    simp [countClear_cons, countClear_nil]
  | case4 resp i b total maxRows h hw tot h2 sid hsid resp2 hc ih =>
    rw [scrollLoop.eq_def]
    simp only [dif_pos h, Bool.not_eq_true] at *
    simp only [hw, if_false, dif_neg h2, hsid, hc]
    simp [countClear_cons, ih]
  | case5 resp i b total maxRows h hw tot h2 hsid =>
    rw [scrollLoop.eq_def]
    simp only [dif_pos h, Bool.not_eq_true] at *
    simp only [hw, if_false, dif_neg h2, hsid]
    simp [countClear_cons, countClear_nil]
  | case6 resp i b total maxRows h =>
    rw [scrollLoop.eq_def]
    simp only [dif_neg h]
    simp [countClear]

theorem scrollLoop_total_eq (conts : Nat → Except Unit SearchResponse)
    (writerFails : Nat → Bool) (resp : SearchResponse) (i b total maxRows : Nat)
    (evs : List ExportEvent) (t : Nat) (lastR : SearchResponse)
    (heq : scrollLoop conts writerFails resp i b total maxRows = (evs, some (t, lastR))) :
    t = total + sumWrites evs := by
  induction resp, i, b, total, maxRows using scrollLoop.induct conts writerFails generalizing evs t lastR with
  | case1 resp i b total maxRows h hw =>
    rw [scrollLoop.eq_def] at heq
    simp only [dif_pos h, hw, if_true] at heq
    simp at heq
  | case2 resp i b total maxRows h hw tot h2 =>
    rw [scrollLoop.eq_def] at heq
    simp only [dif_pos h, Bool.not_eq_true] at heq
    simp only [hw, if_false, dif_pos h2, Prod.mk.injEq, Option.some.injEq] at heq
    obtain ⟨rfl, rfl, rfl⟩ := heq
    simp [sumWrites]
  | case3 resp i b total maxRows h hw tot h2 sid hsid u hc =>
    rw [scrollLoop.eq_def] at heq
    simp only [dif_pos h, Bool.not_eq_true] at heq
    simp only [hw, if_false, dif_neg h2, hsid, hc] at heq
    simp at heq
  | case4 resp i b total maxRows h hw tot h2 sid hsid resp2 hc ih =>
    rw [scrollLoop.eq_def] at heq
    simp only [dif_pos h, Bool.not_eq_true] at *
    simp only [hw, Bool.false_eq_true, if_false, dif_neg h2, hsid, hc] at heq
    have h1 := congrArg Prod.fst heq
    have h3 := congrArg Prod.snd heq
    simp only at h1 h3
    subst h1
    have hXeq : scrollLoop conts writerFails resp2 (i + 1) (b + 1)
        (total + resp.hits.length) maxRows =
        ((scrollLoop conts writerFails resp2 (i + 1) (b + 1)
          (total + resp.hits.length) maxRows).1,
         (scrollLoop conts writerFails resp2 (i + 1) (b + 1)
          (total + resp.hits.length) maxRows).2) := rfl
    rw [h3] at hXeq
    have hx := ih _ t lastR hXeq
    simp [sumWrites]
    omega
  | case5 resp i b total maxRows h hw tot h2 hsid =>
    rw [scrollLoop.eq_def] at heq
    simp only [dif_pos h, Bool.not_eq_true] at heq
    simp only [hw, if_false, dif_neg h2, hsid, Prod.mk.injEq, Option.some.injEq] at heq
    obtain ⟨rfl, rfl, rfl⟩ := heq
    simp [sumWrites]
  | case6 resp i b total maxRows h =>
    rw [scrollLoop.eq_def] at heq
    simp only [dif_neg h, Prod.mk.injEq, Option.some.injEq] at heq
    obtain ⟨rfl, rfl, rfl⟩ := heq
    simp [sumWrites]

theorem scrollLoop_total_lt (conts : Nat → Except Unit SearchResponse)
    (writerFails : Nat → Bool) (B : Nat) (hB : 1 ≤ B)
    (hConts : ∀ j r, conts j = Except.ok r → r.hits.length ≤ B)
    (resp : SearchResponse) (i b total maxRows : Nat) :
    resp.hits.length ≤ B → total ≤ maxRows →
    ∀ evs t lastR, scrollLoop conts writerFails resp i b total maxRows = (evs, some (t, lastR)) →
    t < maxRows + B := by
  induction resp, i, b, total, maxRows using scrollLoop.induct conts writerFails with
  | case1 resp i b total maxRows h hw =>
    intro hResp hTot evs t lastR heq
    rw [scrollLoop.eq_def] at heq
    simp only [dif_pos h, hw, if_true] at heq
    simp at heq
  | case2 resp i b total maxRows h hw tot h2 =>
    intro hResp hTot evs t lastR heq
    rw [scrollLoop.eq_def] at heq
    simp only [dif_pos h, Bool.not_eq_true] at *
    simp only [hw, Bool.false_eq_true, if_false, dif_pos h2, Prod.mk.injEq,
      Option.some.injEq] at heq
    obtain ⟨-, rfl, -⟩ := heq
    omega
  | case3 resp i b total maxRows h hw tot h2 sid hsid u hc =>
    intro hResp hTot evs t lastR heq
    rw [scrollLoop.eq_def] at heq
    simp only [dif_pos h, Bool.not_eq_true] at *
    simp only [hw, Bool.false_eq_true, if_false, dif_neg h2, hsid, hc] at heq
    simp at heq
  | case4 resp i b total maxRows h hw tot h2 sid hsid resp2 hc ih =>
    intro hResp hTot evs t lastR heq
    rw [scrollLoop.eq_def] at heq
    simp only [dif_pos h, Bool.not_eq_true] at *
    simp only [hw, Bool.false_eq_true, if_false, dif_neg h2, hsid, hc] at heq
    have h3 := congrArg Prod.snd heq
    simp only at h3
    have hXeq : scrollLoop conts writerFails resp2 (i + 1) (b + 1)
        (total + resp.hits.length) maxRows =
        ((scrollLoop conts writerFails resp2 (i + 1) (b + 1)
          (total + resp.hits.length) maxRows).1,
         (scrollLoop conts writerFails resp2 (i + 1) (b + 1)
          (total + resp.hits.length) maxRows).2) := rfl
    rw [h3] at hXeq
    exact ih (hConts i resp2 hc) (by omega) _ t lastR hXeq
  | case5 resp i b total maxRows h hw tot h2 hsid =>
    intro hResp hTot evs t lastR heq
    rw [scrollLoop.eq_def] at heq
    simp only [dif_pos h, Bool.not_eq_true] at *
    simp only [hw, Bool.false_eq_true, if_false, dif_neg h2, hsid, Prod.mk.injEq,
      Option.some.injEq] at heq
    obtain ⟨-, rfl, -⟩ := heq
    omega
  | case6 resp i b total maxRows h =>
    intro hResp hTot evs t lastR heq
    rw [scrollLoop.eq_def] at heq
    simp only [dif_neg h, Prod.mk.injEq, Option.some.injEq] at heq
    obtain ⟨-, rfl, -⟩ := heq
    omega

theorem exportData_of_scrollLoop_none (conts : Nat → Except Unit SearchResponse)
    (writerFails : Nat → Bool) (initResp : SearchResponse) (m : Option Nat)
    (evs : List ExportEvent)
    (h : scrollLoop conts writerFails initResp 0 0 0 (effectiveMaxRows m) = (evs, none)) :
    exportDataWithScroll conts writerFails initResp m = (evs, none) := by
  simp only [exportDataWithScroll, h]

theorem exportData_of_scrollLoop_some (conts : Nat → Except Unit SearchResponse)
    (writerFails : Nat → Bool) (initResp : SearchResponse) (m : Option Nat)
    (evs : List ExportEvent) (t : Nat) (lastR : SearchResponse)
    (h : scrollLoop conts writerFails initResp 0 0 0 (effectiveMaxRows m) =
      (evs, some (t, lastR))) :
    exportDataWithScroll conts writerFails initResp m =
      (evs ++ (match lastR.scrollId with
               | some sid => [ExportEvent.clearScroll sid]
               | none => []), some t) := by
  simp only [exportDataWithScroll, h]
  cases lastR.scrollId <;> simp

/-- C1 (amended): release accounting. -/
theorem c1_release_once_amended (conts : Nat → Except Unit SearchResponse)
    (writerFails : Nat → Bool) (initResp : SearchResponse) (m : Option Nat) :
    (∀ evs, scrollLoop conts writerFails initResp 0 0 0 (effectiveMaxRows m) = (evs, none) →
      exportDataWithScroll conts writerFails initResp m = (evs, none) ∧
      countClear evs = 0) ∧
    (∀ evs t lastR,
      scrollLoop conts writerFails initResp 0 0 0 (effectiveMaxRows m) = (evs, some (t, lastR)) →
      (exportDataWithScroll conts writerFails initResp m).2 = some t ∧
      countClear (exportDataWithScroll conts writerFails initResp m).1 =
        (if lastR.scrollId.isSome then 1 else 0)) := by
  constructor
  · intro evs h
    refine ⟨exportData_of_scrollLoop_none _ _ _ _ _ h, ?_⟩
    have := scrollLoop_no_clear conts writerFails initResp 0 0 0 (effectiveMaxRows m)
    rw [h] at this
    exact this
  · intro evs t lastR h
    rw [exportData_of_scrollLoop_some _ _ _ _ _ _ _ h]
    have h0 := scrollLoop_no_clear conts writerFails initResp 0 0 0 (effectiveMaxRows m)
    rw [h] at h0
    simp only at h0
    cases hs : lastR.scrollId <;>
      simp [countClear_append, countClear_cons, countClear_nil, h0, hs]

theorem c1_release_once_amended_witness :
    ((exportDataWithScroll (fun _ => Except.error ()) (fun _ => true)
        ⟨[[]], some "sA"⟩ none = ([ExportEvent.writeBatch 1], none) ∧
      countClear [ExportEvent.writeBatch 1] = 0)) ∧
    ((exportDataWithScroll (fun _ => Except.error ()) (fun _ => false)
        ⟨[], some "sB"⟩ (some 5)).2 = some 0 ∧
      countClear (exportDataWithScroll (fun _ => Except.error ()) (fun _ => false)
        ⟨[], some "sB"⟩ (some 5)).1 = (if (some "sB" : Option String).isSome then 1 else 0)) :=
  ⟨(c1_release_once_amended (fun _ => Except.error ()) (fun _ => true) ⟨[[]], some "sA"⟩ none).1
      [ExportEvent.writeBatch 1] (by simp [scrollLoop, effectiveMaxRows]),
   (c1_release_once_amended (fun _ => Except.error ()) (fun _ => false) ⟨[], some "sB"⟩ (some 5)).2
      [] 0 ⟨[], some "sB"⟩ (by simp [scrollLoop, effectiveMaxRows])⟩

/-- C1 counterexample: an error exit with zero release attempts. -/
theorem c1_counterexample :
    exportDataWithScroll (fun _ => Except.error ()) (fun _ => true)
      ⟨[[]], some "s1"⟩ none = ([ExportEvent.writeBatch 1], none) ∧
    countClear [ExportEvent.writeBatch 1] = 0 := by
  constructor
  · simp [exportDataWithScroll, scrollLoop, effectiveMaxRows]
  · decide

/-- C2 (amended). -/
theorem append_singleton_decomp (l : List ExportEvent) (e x : ExportEvent)
    (pre post : List ExportEvent) (h : l ++ [e] = pre ++ x :: post) (hne : x ≠ e) :
    ∃ post2, l = pre ++ x :: post2 ∧ post = post2 ++ [e] := by
  induction pre generalizing l with
  | nil =>
    cases l with
    | nil =>
      simp only [List.nil_append] at h
      have hx := List.head_eq_of_cons_eq h
      exact absurd hx.symm hne
    | cons a l2 =>
      simp only [List.cons_append, List.nil_append] at h ⊢
      obtain ⟨rfl, h2⟩ := List.cons.injEq .. ▸ h
      exact ⟨l2, rfl, h2.symm⟩
  | cons p pre2 ih =>
    cases l with
    | nil =>
      simp only [List.nil_append, List.cons_append] at h
      obtain ⟨-, h2⟩ := List.cons.injEq .. ▸ h
      exact absurd h2.symm (by simp)
    | cons a l2 =>
      simp only [List.cons_append] at h
      obtain ⟨rfl, h2⟩ := List.cons.injEq .. ▸ h
      obtain ⟨post2, h3, h4⟩ := ih l2 h2
      exact ⟨post2, by rw [List.cons_append, h3], h4⟩

theorem scrollLoop_cont_lt (conts : Nat → Except Unit SearchResponse)
    (writerFails : Nat → Bool) (resp : SearchResponse) (i b total maxRows : Nat) :
    ∀ evs r, scrollLoop conts writerFails resp i b total maxRows = (evs, r) →
    ∀ pre sid post, evs = pre ++ ExportEvent.scrollContinue sid :: post →
    total + sumWrites pre < maxRows := by
  induction resp, i, b, total, maxRows using scrollLoop.induct conts writerFails with
  | case1 resp i b total maxRows h hw =>
    intro evs r heq pre sid post hdec
    rw [scrollLoop.eq_def] at heq
    simp only [dif_pos h, hw, if_true] at heq
    have h1 := congrArg Prod.fst heq
    simp only at h1
    rw [← h1] at hdec
    cases pre with
    | nil => simp at hdec
    | cons a pre2 => simp at hdec
  | case2 resp i b total maxRows h hw tot h2 =>
    intro evs r heq pre sid post hdec
    rw [scrollLoop.eq_def] at heq
    simp only [dif_pos h, Bool.not_eq_true] at *
    simp only [hw, Bool.false_eq_true, if_false, dif_pos h2] at heq
    have h1 := congrArg Prod.fst heq
    simp only at h1
    rw [← h1] at hdec
    cases pre with
    | nil => simp at hdec
    | cons a pre2 => simp at hdec
  | case3 resp i b total maxRows h hw tot h2 sid0 hsid u hc =>
    intro evs r heq pre sid post hdec
    rw [scrollLoop.eq_def] at heq
    simp only [dif_pos h, Bool.not_eq_true] at *
    simp only [hw, Bool.false_eq_true, if_false, dif_neg h2, hsid, hc] at heq
    have h1 := congrArg Prod.fst heq
    simp only at h1
    rw [← h1] at hdec
    cases pre with
    | nil => simp at hdec
    | cons a pre2 =>
      simp only [List.cons_append] at hdec
      obtain ⟨rfl, hdec2⟩ := List.cons.injEq .. ▸ hdec
      cases pre2 with
      | nil =>
        simp [sumWrites]
        omega
      | cons a2 pre3 => simp at hdec2
  | case4 resp i b total maxRows h hw tot h2 sid0 hsid resp2 hc ih =>
    intro evs r heq pre sid post hdec
    rw [scrollLoop.eq_def] at heq
    simp only [dif_pos h, Bool.not_eq_true] at *
    simp only [hw, Bool.false_eq_true, if_false, dif_neg h2, hsid, hc] at heq
    have h1 := congrArg Prod.fst heq
    simp only at h1
    rw [← h1] at hdec
    cases pre with
    | nil => simp at hdec
    | cons a pre2 =>
      simp only [List.cons_append] at hdec
      obtain ⟨rfl, hdec2⟩ := List.cons.injEq .. ▸ hdec
      cases pre2 with
      | nil =>
        simp [sumWrites]
        omega
      | cons a2 pre3 =>
        simp only [List.cons_append] at hdec2
        obtain ⟨rfl, hdec3⟩ := List.cons.injEq .. ▸ hdec2
        have hXeq : scrollLoop conts writerFails resp2 (i + 1) (b + 1)
            (total + resp.hits.length) maxRows =
            ((scrollLoop conts writerFails resp2 (i + 1) (b + 1)
              (total + resp.hits.length) maxRows).1,
             (scrollLoop conts writerFails resp2 (i + 1) (b + 1)
              (total + resp.hits.length) maxRows).2) := rfl
        have hx := ih _ _ hXeq pre3 sid post hdec3
        simp only [sumWrites]
        omega
  | case5 resp i b total maxRows h hw tot h2 hsid =>
    intro evs r heq pre sid post hdec
    rw [scrollLoop.eq_def] at heq
    simp only [dif_pos h, Bool.not_eq_true] at *
    simp only [hw, Bool.false_eq_true, if_false, dif_neg h2, hsid] at heq
    have h1 := congrArg Prod.fst heq
    simp only at h1
    rw [← h1] at hdec
    cases pre with
    | nil => simp at hdec
    | cons a pre2 => simp at hdec
  | case6 resp i b total maxRows h =>
    intro evs r heq pre sid post hdec
    rw [scrollLoop.eq_def] at heq
    simp only [dif_neg h] at heq
    have h1 := congrArg Prod.fst heq
    simp only at h1
    rw [← h1] at hdec
    simp at hdec

/-- C2 (amended): the exported-row count equals the rows handed to the
writer (so it is monotonically non-decreasing across batches), the final
count can overshoot the cap by less than one batch (`< maxRows + B` when
every batch holds at most `B` rows), and no scroll continuation is ever
requested once the written total has reached the cap. -/
theorem c2_row_cap_amended (conts : Nat → Except Unit SearchResponse)
    (writerFails : Nat → Bool) (initResp : SearchResponse) (m : Option Nat)
    (B : Nat) (evs pre post : List ExportEvent) (t : Nat)
    (hB : 1 ≤ B) (hInit : initResp.hits.length ≤ B)
    (hConts : ∀ j r, conts j = Except.ok r → r.hits.length ≤ B)
    (hRun : exportDataWithScroll conts writerFails initResp m = (evs, some t))
    (hSplit : evs = pre ++ post) :
    t = sumWrites evs ∧ t < effectiveMaxRows m + B ∧ sumWrites pre ≤ sumWrites evs ∧
    (∀ pre2 sid post2, evs = pre2 ++ ExportEvent.scrollContinue sid :: post2 →
      sumWrites pre2 < effectiveMaxRows m) := by
  rcases hS : scrollLoop conts writerFails initResp 0 0 0 (effectiveMaxRows m) with ⟨evs0, r0⟩
  cases r0 with
  | none =>
    rw [exportData_of_scrollLoop_none _ _ _ _ _ hS] at hRun
    simp at hRun
  | some p =>
    rcases p with ⟨t0, lastR⟩
    rw [exportData_of_scrollLoop_some _ _ _ _ _ _ _ hS] at hRun
    have h1 := congrArg Prod.fst hRun
    have h2 := congrArg Prod.snd hRun
    simp only at h1 h2
    have ht0 : t0 = t := by simpa using h2
    subst ht0
    have hEq := scrollLoop_total_eq _ _ _ _ _ _ _ _ _ _ hS
    have hLt := scrollLoop_total_lt _ _ B hB hConts _ _ _ _ _ hInit (Nat.zero_le _) _ _ _ hS
    subst h1
    have hclr : sumWrites (match lastR.scrollId with
        | some sid => [ExportEvent.clearScroll sid]
        | none => []) = 0 := by
      cases lastR.scrollId <;> simp [sumWrites]
    refine ⟨?_, ?_, ?_, ?_⟩
    · rw [sumWrites_append, hclr]
      omega
    · exact hLt
    · rw [hSplit, sumWrites_append]
      omega
    · intro pre2 sid post2 hdec
      cases hsid : lastR.scrollId with
      | none =>
        rw [hsid] at hdec
        simp only [List.append_nil] at hdec
        have := scrollLoop_cont_lt _ _ _ _ _ _ _ _ _ hS pre2 sid post2 hdec
        omega
      | some s =>
        rw [hsid] at hdec
        obtain ⟨post3, h3, -⟩ := append_singleton_decomp _ _ _ _ _ hdec (by simp)
        have := scrollLoop_cont_lt _ _ _ _ _ _ _ _ _ hS pre2 sid post3 h3
        omega

theorem c2_row_cap_amended_witness :
    4 = sumWrites [ExportEvent.writeBatch 2, ExportEvent.scrollContinue "s",
        ExportEvent.writeBatch 2, ExportEvent.clearScroll "s"] ∧
    4 < effectiveMaxRows (some 3) + 3 ∧
    sumWrites [ExportEvent.writeBatch 2, ExportEvent.scrollContinue "s"] ≤
      sumWrites [ExportEvent.writeBatch 2, ExportEvent.scrollContinue "s",
        ExportEvent.writeBatch 2, ExportEvent.clearScroll "s"] ∧
    sumWrites [ExportEvent.writeBatch 2] < effectiveMaxRows (some 3) := by
  have H := c2_row_cap_amended (fun _ => Except.ok ⟨[[], []], some "s"⟩) (fun _ => false)
    ⟨[[], []], some "s"⟩ (some 3) 3
    [ExportEvent.writeBatch 2, ExportEvent.scrollContinue "s",
      ExportEvent.writeBatch 2, ExportEvent.clearScroll "s"]
    [ExportEvent.writeBatch 2, ExportEvent.scrollContinue "s"]
    [ExportEvent.writeBatch 2, ExportEvent.clearScroll "s"] 4
    (by decide) (by decide)
    (by intro j r h; injection h with h; subst h; decide)
    (by simp [exportDataWithScroll, scrollLoop, effectiveMaxRows])
    (by decide)
  exact ⟨H.1, H.2.1, H.2.2.1,
    H.2.2.2 [ExportEvent.writeBatch 2] "s"
      [ExportEvent.writeBatch 2, ExportEvent.clearScroll "s"] (by rfl)⟩

/-- C2 counterexample: rowsExported exceeds the cap. -/
theorem c2_counterexample :
    exportDataWithScroll (fun _ => Except.ok ⟨[[], []], some "s"⟩) (fun _ => false)
      ⟨[[], []], some "s"⟩ (some 3) =
      ([ExportEvent.writeBatch 2, ExportEvent.scrollContinue "s",
        ExportEvent.writeBatch 2, ExportEvent.clearScroll "s"], some 4) ∧
    effectiveMaxRows (some 3) = 3 ∧ ¬(4 ≤ 3) ∧
    (2 ≤ min 1000 (effectiveMaxRows (some 3))) := by
  refine ⟨?_, by decide, by decide, by decide⟩
  simp [exportDataWithScroll, scrollLoop, effectiveMaxRows]

/-- C10. -/
theorem c10_empty_first_page (conts : Nat → Except Unit SearchResponse)
    (writerFails : Nat → Bool) (sid : Option String) (m : Option Nat) :
    exportDataWithScroll conts writerFails ⟨[], sid⟩ m =
      ((match sid with | some s => [ExportEvent.clearScroll s] | none => []), some 0) ∧
    sumWrites (match sid with | some s => [ExportEvent.clearScroll s] | none => []) = 0 ∧
    countScrollCont (match sid with | some s => [ExportEvent.clearScroll s] | none => []) = 0 ∧
    countClear (match sid with | some s => [ExportEvent.clearScroll s] | none => []) =
      (if sid.isSome then 1 else 0) := by
  cases sid <;>
    simp [exportDataWithScroll, scrollLoop, sumWrites, countScrollCont, countClear]

mutual
/-- `validateQueryDepth(obj, depth)` (delete-document.ts:186-198; the same
function appears verbatim in the search tool, src/unnamed/part_002:283-295).
`false` models throwing the depth-exceeded ValidationError. -/
def validateQueryDepth : List (String × JsonVal) → Nat → Bool
  | kvs, depth =>
    if depth > 20 then false
    else vqdValues kvs depth
termination_by kvs depth => (sizeOf kvs, 1)

/-- The `for (const value of Object.values(obj))` loop of
`validateQueryDepth`: recurse into plain-object values with `depth + 1`
(arrays and scalars are skipped). -/
def vqdValues : List (String × JsonVal) → Nat → Bool
  | [], _ => true
  | (_, v) :: rest, depth =>
    (match v with
     | .obj kvs2 => validateQueryDepth kvs2 (depth + 1)
     | _ => true) && vqdValues rest depth
termination_by kvs depth => (sizeOf kvs, 0)
end

/-- The nesting-depth measure of a filter tree: length of the longest
chain of plain-object (non-array) values below the root object. A node
nested `k` object steps below the root is visited by
`validateQueryDepth` with `depth = k`. -/
def objNesting : List (String × JsonVal) → Nat
  | [] => 0
  | (_, v) :: rest =>
    max (match v with | .obj kvs2 => objNesting kvs2 + 1 | _ => 0) (objNesting rest)

theorem validateQueryDepth_iff : ∀ (kvs : List (String × JsonVal)) (d : Nat),
    validateQueryDepth kvs d = true ↔ d + objNesting kvs ≤ 20 := by
  refine validateQueryDepth.induct
    (fun kvs d => validateQueryDepth kvs d = true ↔ d + objNesting kvs ≤ 20)
    (fun kvs d => vqdValues kvs d = true ↔ (objNesting kvs = 0 ∨ d + objNesting kvs ≤ 20))
    ?_ ?_ ?_ ?_
  · intro kvs depth hd
    rw [validateQueryDepth.eq_def]
    simp only [if_pos hd]
    constructor
    · intro hfalse
      cases hfalse
    · intro hle
      omega
  · intro kvs depth hd ih
    rw [validateQueryDepth.eq_def]
    simp only [if_neg hd]
    rw [ih]
    omega
  · intro d
    rw [vqdValues.eq_def]
    simp [objNesting]
  · intro k v rest depth ihv ihrest
    rw [vqdValues.eq_def]
    simp only [Bool.and_eq_true]
    rw [ihrest]
    cases v with
    | obj kvs2 =>
      simp only at ihv
      rw [ihv]
      simp only [objNesting]
      constructor
      · rintro ⟨h1, h2⟩
        right
        rcases h2 with h2 | h2 <;> omega
      · intro h
        rcases h with h | h <;> constructor <;> omega
    | null => simp [objNesting]
    | bool b => simp [objNesting]
    | num n => simp [objNesting]
    | str s => simp [objNesting]
    | arr xs => simp [objNesting]

/-- A chain of `n` nested single-key objects (nesting depth exactly `n`). -/
def nestedObj : Nat → List (String × JsonVal)
  | 0 => [("leaf", .num 1)]
  | n + 1 => [("child", .obj (nestedObj n))]

theorem objNesting_nestedObj (n : Nat) : objNesting (nestedObj n) = n := by
  induction n with
  | zero => simp [nestedObj, objNesting]
  | succ n ih => simp [nestedObj, objNesting, ih]

/-- C3: a filter tree whose maximum chain of object-valued (non-array)
nesting exceeds 20 fails depth validation; a tree of nesting depth
exactly 20 passes. -/
theorem c3_query_depth_limit (kvs : List (String × JsonVal)) :
    (objNesting kvs > 20 → validateQueryDepth kvs 0 = false) ∧
    (objNesting kvs = 20 → validateQueryDepth kvs 0 = true) := by
  constructor
  · intro h
    cases hb : validateQueryDepth kvs 0 with
    | false => rfl
    | true =>
      have := (validateQueryDepth_iff kvs 0).mp hb
      omega
  · intro h
    rw [validateQueryDepth_iff]
    omega

theorem c3_query_depth_limit_witness :
    (objNesting (nestedObj 21) > 20 ∧ validateQueryDepth (nestedObj 21) 0 = false) ∧
    (objNesting (nestedObj 20) = 20 ∧ validateQueryDepth (nestedObj 20) 0 = true) :=
  ⟨⟨by rw [objNesting_nestedObj]; omega, (c3_query_depth_limit (nestedObj 21)).1
      (by rw [objNesting_nestedObj]; omega)⟩,
   ⟨by rw [objNesting_nestedObj], (c3_query_depth_limit (nestedObj 20)).2
      (by rw [objNesting_nestedObj])⟩⟩

theorem extractGo_none (rest : List String) : extractGo none rest = none := by
  cases rest <;> rfl

/-- C6: dotted-path extraction yields empty for an absent segment or a
non-object met mid-path, serializes composite terminal values, and
produces rows `1,2` and `,3` in Scenario E. -/
theorem c6_field_extraction :
    (∀ (kvs : List (String × JsonVal)) (p : String) (rest : List String),
      getKey kvs p = none → extractGo (some (.obj kvs)) (p :: rest) = none) ∧
    (∀ (v : JsonVal), (∀ kvs, v ≠ JsonVal.obj kvs) →
      ∀ (p : String) (rest : List String), extractGo (some v) (p :: rest) = none) ∧
    (∀ (source : List (String × JsonVal)) (f : String) (kvs : List (String × JsonVal)),
      extractGo (some (.obj source)) (splitDot f) = some (.obj kvs) →
      extractFieldValue source f = some (.str (jsonStringify (.obj kvs)))) ∧
    (∀ (source : List (String × JsonVal)) (f : String) (xs : List JsonVal),
      extractGo (some (.obj source)) (splitDot f) = some (.arr xs) →
      extractFieldValue source f = some (.str (jsonStringify (.arr xs)))) ∧
    renderRow [("a", .obj [("b", .num 1)]), ("c", .num 2)] ["a.b", "c"] = "1,2" ∧
    renderRow [("a", .obj []), ("c", .num 3)] ["a.b", "c"] = ",3" := by
  refine ⟨?_, ?_, ?_, ?_, by rfl, by rfl⟩
  · intro kvs p rest h
    simp only [extractGo, h]
    exact extractGo_none rest
  · intro v hv p rest
    cases v with
    | obj kvs => exact absurd rfl (hv kvs)
    | null => rfl
    | bool b => rfl
    | num n => rfl
    | str s => rfl
    | arr xs => rfl
  · intro source f kvs h
    simp only [extractFieldValue, h]
  · intro source f xs h
    simp only [extractFieldValue, h]

theorem c6_field_extraction_witness :
    extractGo (some (.obj [("x", JsonVal.num 7)])) ["y"] = none ∧
    extractGo (some (JsonVal.num 5)) ["y"] = none ∧
    extractFieldValue [("a", .obj [("b", .num 1)])] "a" =
      some (.str (jsonStringify (.obj [("b", JsonVal.num 1)]))) ∧
    extractFieldValue [("a", .arr [JsonVal.num 1, JsonVal.num 2])] "a" =
      some (.str (jsonStringify (.arr [JsonVal.num 1, JsonVal.num 2]))) :=
  ⟨c6_field_extraction.1 [("x", JsonVal.num 7)] "y" [] (by rfl),
   c6_field_extraction.2.1 (JsonVal.num 5) (by intro kvs h; cases h) "y" [],
   c6_field_extraction.2.2.1 [("a", .obj [("b", .num 1)])] "a" [("b", JsonVal.num 1)] (by rfl),
   c6_field_extraction.2.2.2.1 [("a", .arr [JsonVal.num 1, JsonVal.num 2])] "a"
     [JsonVal.num 1, JsonVal.num 2] (by rfl)⟩

/-- `isValidDottedField(fieldName)` (insert-data.ts:133-136): no leading,
trailing, or consecutive dots. -/
def isValidDottedField (fieldName : String) : Bool :=
  !(strStartsWith fieldName "." || strEndsWith fieldName "." ||
    strIncludes fieldName "..")

/-- The ValidationErrors `validateDocument`/`validateNestedObject`
(insert-data.ts:102-160) can throw, by message. -/
inductive DocError : Type where
  | emptyDoc : DocError
  | reservedField (key : String) : DocError
  | badDotPath (key : String) : DocError
  | nameTooLong (key : String) : DocError
  | docTooLarge : DocError
  | tooDeep : DocError
  | arrayTooBig (key : String) : DocError
  | stringTooLong (key : String) : DocError
deriving Repr, DecidableEq

/-- The `for (const key of Object.keys(document))` loop of
`validateDocument` (insert-data.ts:109-121): per key, in order: reserved
`_` prefix, then dot notation, then length. -/
def validateKeys : List String → Except DocError Unit
  | [] => .ok ()
  | key :: rest =>
    if strStartsWith key "_" then .error (.reservedField key)
    else if strIncludes key "." && !isValidDottedField key then .error (.badDotPath key)
    else if key.length > 256 then .error (.nameTooLong key)
    else validateKeys rest

mutual
/-- `validateNestedObject(obj, depth)` (insert-data.ts:138-160). -/
def validateNestedObject (obj : List (String × JsonVal)) (depth : Nat) :
    Except DocError Unit :=
  if depth > 20 then .error .tooDeep
  else vnoEntries obj depth
termination_by (sizeOf obj, 1)

/-- Its `for (const [key, value] of Object.entries(obj))` loop: recurse
into plain-object values with `depth + 1`; reject arrays with more than
10,000 elements and strings longer than 1 MiB. Nested keys themselves are
not inspected. -/
def vnoEntries : List (String × JsonVal) → Nat → Except DocError Unit
  | [], _ => .ok ()
  | (key, v) :: rest, depth =>
    match (match v with
           | .obj kvs => validateNestedObject kvs (depth + 1)
           | _ => .ok ()) with
    | .error e => .error e
    | .ok () =>
      if (match v with | .arr xs => decide (xs.length > 10000) | _ => false) then
        .error (.arrayTooBig key)
      else if (match v with | .str s => decide (s.length > 1048576) | _ => false) then
        .error (.stringTooLong key)
      else vnoEntries rest depth
termination_by kvs depth => (sizeOf kvs, 0)
end

/-- `validateDocument(document)` (insert-data.ts:102-131): empty check,
per-key loop, serialized-size check (100 MiB), then the nested walk. -/
def validateDocument (document : List (String × JsonVal)) : Except DocError Unit :=
  if document.length = 0 then .error .emptyDoc
  else match validateKeys (document.map Prod.fst) with
    | .error e => .error e
    | .ok () =>
      if (jsonStringify (.obj document)).length > 100 * 1024 * 1024 then
        .error .docTooLarge
      else validateNestedObject document 0

mutual
/-- Whether any key, at any nesting level (through objects and arrays),
begins with `_` — the property C4 quantifies over. -/
def hasReservedKey : List (String × JsonVal) → Bool
  | [] => false
  | (k, v) :: rest => strStartsWith k "_" || hasReservedKeyVal v || hasReservedKey rest
termination_by kvs => (sizeOf kvs, 0)

/-- Reserved-key search inside one value. -/
def hasReservedKeyVal : JsonVal → Bool
  | .obj kvs => hasReservedKey kvs
  | .arr xs => hasReservedKeyArr xs
  | _ => false
termination_by v => (sizeOf v, 0)

/-- Reserved-key search inside an array's elements. -/
def hasReservedKeyArr : List JsonVal → Bool
  | [] => false
  | v :: rest => hasReservedKeyVal v || hasReservedKeyArr rest
termination_by xs => (sizeOf xs, 0)
end

theorem validateKeys_reserved (pre : List String) (k : String) (post : List String)
    (hk : strStartsWith k "_" = true)
    (hpre : ∀ k' ∈ pre, strStartsWith k' "_" = false ∧
      (strIncludes k' "." = false ∨ isValidDottedField k' = true) ∧ k'.length ≤ 256) :
    validateKeys (pre ++ k :: post) = .error (.reservedField k) := by
  induction pre with
  | nil => simp [validateKeys, hk]
  | cons k' rest ih =>
    have hc := hpre k' (by simp)
    obtain ⟨h1, h2, h3⟩ := hc
    have hdot : (strIncludes k' "." && !isValidDottedField k') = false := by
      rcases h2 with h2 | h2 <;> simp [h2]
    simp only [List.cons_append, validateKeys, h1, hdot, Bool.false_eq_true, if_false]
    rw [if_neg (by omega)]
    exact ih (fun x hx => hpre x (by simp [hx]))

/-- C4 (amended): a top-level key beginning with `_` makes `validateDocument`
fail with the reserved-field error (here: the first such key, with the
keys before it clean); nested keys beginning with `_` are not examined, so
a payload whose only underscore key is nested passes; and removing the
offending top-level key from an otherwise-valid payload makes validation
pass. -/
theorem c4_reserved_key_amended :
    (∀ (pre post : List (String × JsonVal)) (k : String) (v : JsonVal),
      strStartsWith k "_" = true →
      (∀ k' ∈ pre.map Prod.fst, strStartsWith k' "_" = false ∧
        (strIncludes k' "." = false ∨ isValidDottedField k' = true) ∧ k'.length ≤ 256) →
      validateDocument (pre ++ (k, v) :: post) = .error (.reservedField k)) ∧
    validateDocument [("a", .obj [("_b", .num 1)]), ("keep", .num 2)] = .ok () ∧
    validateDocument [("keep", .num 2)] = .ok () := by
  refine ⟨?_, ?_, ?_⟩
  · intro pre post k v hk hpre
    have hkeys : validateKeys ((pre ++ (k, v) :: post).map Prod.fst) =
        .error (.reservedField k) := by
      rw [List.map_append, List.map_cons]
      exact validateKeys_reserved _ _ _ hk hpre
    have hlen : (pre ++ (k, v) :: post).length ≠ 0 := by simp
    simp only [validateDocument, if_neg hlen, hkeys]
  · have hk : validateKeys ["a", "keep"] = .ok () := by rfl
    have hsize : ¬(100 * 1024 * 1024 <
        (jsonStringify (.obj [("a", .obj [("_b", .num 1)]), ("keep", .num 2)])).length) := by
      simp [jsonStringify, jsonStringifyObj]
      decide
    simp only [validateDocument, List.map_cons, List.map_nil, hk]
    norm_num
    rw [if_neg hsize]
    simp [validateNestedObject, vnoEntries]
  · have hk : validateKeys ["keep"] = .ok () := by rfl
    have hsize : ¬(100 * 1024 * 1024 <
        (jsonStringify (.obj [("keep", .num 2)])).length) := by
      simp [jsonStringify, jsonStringifyObj]
      decide
    simp only [validateDocument, List.map_cons, List.map_nil, hk]
    norm_num
    rw [if_neg hsize]
    simp [validateNestedObject, vnoEntries]

theorem c4_reserved_key_amended_witness :
    validateDocument [("x", .num 0), ("_bad", .num 1)] =
      .error (.reservedField "_bad") :=
  c4_reserved_key_amended.1 [("x", .num 0)] [] "_bad" (.num 1) (by rfl)
    (by
      intro k' hk'
      simp only [List.map_cons, List.map_nil, List.mem_singleton] at hk'
      subst hk'
      exact ⟨by rfl, Or.inl (by rfl), by decide⟩)

/-- C4 counterexample: a payload whose only `_`-prefixed key is nested
passes `validateDocument`, although it contains a reserved key. -/
theorem c4_counterexample :
    hasReservedKey [("a", .obj [("_b", .num 1)])] = true ∧
    validateDocument [("a", .obj [("_b", .num 1)])] = .ok () := by
  constructor
  · simp [hasReservedKey, hasReservedKeyVal, strStartsWith]
  · have hk : validateKeys ["a"] = .ok () := by rfl
    have hsize : ¬(100 * 1024 * 1024 <
        (jsonStringify (.obj [("a", .obj [("_b", .num 1)])])).length) := by
      simp [jsonStringify, jsonStringifyObj]
      decide
    simp only [validateDocument, List.map_cons, List.map_nil, hk]
    norm_num
    rw [if_neg hsize]
    simp [validateNestedObject, vnoEntries]

theorem sizeOf_getKey (kvs : List (String × JsonVal)) (k : String) (v : JsonVal)
    (h : getKey kvs k = some v) : sizeOf v < sizeOf kvs := by
  induction kvs with
  | nil => simp [getKey] at h
  | cons p rest ih =>
    rcases p with ⟨k', v'⟩
    rw [getKey] at h
    split at h
    · cases h
      simp
      omega
    · have := ih h
      simp at this ⊢
      omega

/-- Truthiness of a JS value (`if (fieldConfig.type)` style checks). -/
def jsTruthy : JsonVal → Bool
  | .null => false
  | .bool b => b
  | .num n => decide (n ≠ 0)
  | .str s => decide (s ≠ "")
  | .arr _ => true
  | .obj _ => true

/-- Truthiness of a possibly-absent property. -/
def jsTruthyOpt : Option JsonVal → Bool
  | none => false
  | some v => jsTruthy v

/-- `extractFieldNames(properties, prefix)` (export-to-csv.ts:198-221):
flatten mapping metadata into dotted field names. An entry whose config
object has a truthy `type` is a field; otherwise a `properties` object is
recursed into under the dotted prefix; any other entry (including a
truthy non-object `properties`, whose `Object.entries` is empty)
contributes nothing. -/
def extractFieldNames : List (String × JsonVal) → String → List String
  | [], _ => []
  | (key, value) :: rest, pfx =>
    (match value with
     | .obj cfg =>
       if jsTruthyOpt (getKey cfg "type") then
         [if pfx = "" then key else pfx ++ "." ++ key]
       else
         match h : getKey cfg "properties" with
         | some (.obj props) =>
           extractFieldNames props (if pfx = "" then key else pfx ++ "." ++ key)
         | _ => []
     | _ => []) ++ extractFieldNames rest pfx
termination_by kvs _ => sizeOf kvs
decreasing_by
  · have := sizeOf_getKey _ _ _ h
    simp at this ⊢
    omega
  · simp

/-- Outcome of `determineFields` (export-to-csv.ts:147-196): a field list,
the "could not determine fields" ValidationError, or the raw error of the
catch-branch sample fetch propagating out. -/
inductive DFResult : Type where
  | fields (fs : List String) : DFResult
  | validationError : DFResult
  | propagatedError : DFResult
deriving Repr, DecidableEq

/-- `Object.keys(sampleDoc || {})`: top-level keys of the first hit's
`_source` (an absent or non-object source yields no keys; `_source` is an
object whenever present). -/
def sampleKeys : Option JsonVal → List String
  | some (.obj kvs) => kvs.map Prod.fst
  | _ => []

/-- The catch branch of `determineFields` (lines 180-195): run the sample
search again; a thrown error propagates raw, a hit yields its top-level
keys, no hits yields the ValidationError. -/
def determineFieldsCatch : Except Unit (List (Option JsonVal)) → DFResult
  | .error _ => .propagatedError
  | .ok (h :: _) => .fields (sampleKeys h)
  | .ok [] => .validationError

/-- The try branch (lines 155-179), reaching the catch branch when the
mapping lookup or the try-branch sample search throws. `mapping` is the
outcome of `indices.getMapping` reduced to the index's `properties`
record (`{}` when absent); `sample1`/`sample2` are the outcomes of the
sample searches in the try/catch branches (lists of hit `_source`s).
When the flattened mapping is empty and the try-branch sample has no
hits, control falls through to `return fields` — the empty list. -/
def determineFieldsTry (mapping : Except Unit (List (String × JsonVal)))
    (sample1 sample2 : Except Unit (List (Option JsonVal))) : DFResult :=
  match mapping with
  | .error _ => determineFieldsCatch sample2
  | .ok props =>
    let fields := extractFieldNames props ""
    if fields.length = 0 then
      match sample1 with
      | .error _ => determineFieldsCatch sample2
      | .ok (h :: _) => .fields (sampleKeys h)
      | .ok [] => .fields fields
    else .fields fields

/-- `determineFields(args)` (export-to-csv.ts:147-150 entry): an explicit
non-empty caller field list is returned verbatim; otherwise the
mapping/sample discovery runs. -/
def determineFields (explicit : Option (List String))
    (mapping : Except Unit (List (String × JsonVal)))
    (sample1 sample2 : Except Unit (List (Option JsonVal))) : DFResult :=
  match explicit with
  | some fs =>
    if fs.length > 0 then .fields fs
    else determineFieldsTry mapping sample1 sample2
  | none => determineFieldsTry mapping sample1 sample2

/-- C5 (amended): field-discovery fallback order. The caller's non-empty
list is returned verbatim; a non-empty flattened mapping is returned;
an empty flattened mapping falls back to the first sample hit's top-level
keys; but when the mapping lookup succeeds with no fields and the sample
has no hits, the empty field list is returned; the ValidationError occurs
only on the catch path (mapping lookup or first sample search threw) when
the second sample fetch yields no hits. -/
theorem c5_field_discovery_amended :
    (∀ fs m s1 s2, fs ≠ [] → determineFields (some fs) m s1 s2 = .fields fs) ∧
    (∀ props s1 s2, extractFieldNames props "" ≠ [] →
      determineFields none (.ok props) s1 s2 = .fields (extractFieldNames props "")) ∧
    (∀ props h rest s2, extractFieldNames props "" = [] →
      determineFields none (.ok props) (.ok (h :: rest)) s2 = .fields (sampleKeys h)) ∧
    (∀ props s2, extractFieldNames props "" = [] →
      determineFields none (.ok props) (.ok []) s2 = .fields []) ∧
    (∀ props s2, extractFieldNames props "" = [] →
      determineFields none (.ok props) (.error ()) s2 = determineFieldsCatch s2) ∧
    (∀ s1, determineFields none (.error ()) s1 (.ok []) = .validationError) ∧
    (∀ s1 h rest, determineFields none (.error ()) s1 (.ok (h :: rest)) =
      .fields (sampleKeys h)) := by
  refine ⟨?_, ?_, ?_, ?_, ?_, ?_, ?_⟩
  · intro fs m s1 s2 h
    have : fs.length > 0 := List.length_pos.mpr h
    simp [determineFields, this]
  · intro props s1 s2 h
    have : ¬((extractFieldNames props "").length = 0) := by
      simpa [List.length_eq_zero] using h
    simp [determineFields, determineFieldsTry, this]
  · intro props h rest s2 hf
    simp [determineFields, determineFieldsTry, hf]
  · intro props s2 hf
    simp [determineFields, determineFieldsTry, hf]
  · intro props s2 hf
    simp [determineFields, determineFieldsTry, hf]
  · intro s1
    simp [determineFields, determineFieldsTry, determineFieldsCatch]
  · intro s1 h rest
    simp [determineFields, determineFieldsTry, determineFieldsCatch]

theorem c5_field_discovery_amended_witness :
    determineFields (some ["f1"]) (.ok []) (.ok []) (.ok []) = .fields ["f1"] ∧
    determineFields none (.ok [("t", .obj [("type", .str "keyword")])]) (.ok []) (.ok []) =
      .fields (extractFieldNames [("t", .obj [("type", .str "keyword")])] "") ∧
    determineFields none (.ok []) (.ok [some (.obj [("k1", .num 1)])]) (.ok []) =
      .fields (sampleKeys (some (.obj [("k1", .num 1)]))) ∧
    determineFields none (.ok []) (.error ()) (.ok []) = determineFieldsCatch (.ok []) :=
  ⟨c5_field_discovery_amended.1 ["f1"] (.ok []) (.ok []) (.ok []) (by simp),
   c5_field_discovery_amended.2.1 [("t", .obj [("type", .str "keyword")])] (.ok []) (.ok [])
     (by simp [extractFieldNames, jsTruthyOpt, jsTruthy, getKey]),
   c5_field_discovery_amended.2.2.1 [] (some (.obj [("k1", .num 1)])) [] (.ok [])
     (by simp [extractFieldNames]),
   c5_field_discovery_amended.2.2.2.2.1 [] (.ok [])
     (by simp [extractFieldNames])⟩

/-- C5 counterexample: schema lookup succeeds with no fields and the
sample fetch yields no hits, yet `determineFields` returns the empty
field list instead of failing with the ValidationError. -/
theorem c5_counterexample :
    determineFields none (.ok []) (.ok []) (.ok []) = .fields [] ∧
    DFResult.fields [] ≠ DFResult.validationError := by
  constructor
  · simp [determineFields, determineFieldsTry, extractFieldNames]
  · decide

/-- The character class of the filename sanitizer: `[a-zA-Z0-9._-]`. -/
def filenameCharOk (c : Char) : Bool :=
  ('a' ≤ c && c ≤ 'z') || ('A' ≤ c && c ≤ 'Z') || ('0' ≤ c && c ≤ '9') ||
  c = '.' || c = '_' || c = '-'

/-- `filename.replace(/[^a-zA-Z0-9._-]/g, '_')` (export-to-csv.ts:136):
each character outside the class is replaced by an underscore, not
removed. -/
def replaceBadChars (cs : List Char) : List Char :=
  cs.map fun c => if filenameCharOk c then c else '_'

/-- `.replace(/_{2,}/g, '_')` (export-to-csv.ts:137): collapse each run
of two or more underscores to a single one (`prevU`: the previous
character belonged to an underscore run). -/
def collapseUnderscores : List Char → Bool → List Char
  | [], _ => []
  | c :: rest, prevU =>
    if c = '_' then
      if prevU then collapseUnderscores rest true
      else '_' :: collapseUnderscores rest true
    else c :: collapseUnderscores rest false

/-- `generateFilename(args)` (export-to-csv.ts:132-145). A caller-supplied
filename (JS truthiness: an empty string counts as absent) is sanitized
and given a `.csv` suffix if missing; otherwise
`<index>_export_<date>.csv` is synthesized (`dateStr` stands for the date
part of the ISO timestamp). -/
def generateFilename (filename : Option String) (index : String) (dateStr : String) :
    String :=
  match filename with
  | some f =>
    if f = "" then index ++ "_export_" ++ dateStr ++ ".csv"
    else
      let sanitized := String.mk (collapseUnderscores (replaceBadChars f.data) false)
      if strEndsWith sanitized ".csv" then sanitized else sanitized ++ ".csv"
  | none => index ++ "_export_" ++ dateStr ++ ".csv"

/-- The spec's wording, as written: "strip characters outside
`[A-Za-z0-9._-]`" — remove them — "and ensure a `.csv` suffix"
(refinement definition following the spec's words, for comparison with
`generateFilename`, which replaces instead of stripping). -/
def specStripFilename (f : String) : String :=
  let stripped := String.mk (f.data.filter filenameCharOk)
  if strEndsWith stripped ".csv" then stripped else stripped ++ ".csv"

/-- No two consecutive underscores. -/
def noDoubleUnderscore : List Char → Bool
  | [] => true
  | [_] => true
  | c1 :: c2 :: rest => !(c1 = '_' && c2 = '_') && noDoubleUnderscore (c2 :: rest)

theorem replaceBadChars_id (cs : List Char) (h : cs.all filenameCharOk = true) :
    replaceBadChars cs = cs := by
  induction cs with
  | nil => rfl
  | cons c rest ih =>
    simp only [List.all_cons, Bool.and_eq_true] at h
    simp only [replaceBadChars, List.map_cons, if_pos h.1]
    have := ih h.2
    simp only [replaceBadChars] at this
    rw [this]

theorem replaceBadChars_all_ok (cs : List Char) :
    (replaceBadChars cs).all filenameCharOk = true := by
  induction cs with
  | nil => rfl
  | cons c rest ih =>
    simp only [replaceBadChars, List.map_cons, List.all_cons] at ih ⊢
    rw [ih]
    split <;> simp_all [filenameCharOk]

theorem collapseUnderscores_all_ok (cs : List Char) (prevU : Bool)
    (h : cs.all filenameCharOk = true) :
    (collapseUnderscores cs prevU).all filenameCharOk = true := by
  induction cs generalizing prevU with
  | nil => rfl
  | cons c rest ih =>
    simp only [List.all_cons, Bool.and_eq_true] at h
    rw [collapseUnderscores]
    split
    · split
      · exact ih true h.2
      · simp only [List.all_cons, Bool.and_eq_true]
        exact ⟨by decide, ih true h.2⟩
    · simp only [List.all_cons, Bool.and_eq_true]
      exact ⟨h.1, ih false h.2⟩

theorem strEndsWith_append (s t : String) : strEndsWith (s ++ t) t = true := by
  rw [strEndsWith, String.data_append, List.isSuffixOf]
  exact List.isPrefixOf_iff_prefix.mpr (by simp)

theorem collapseUnderscores_id (cs : List Char) (prevU : Bool)
    (h : noDoubleUnderscore cs = true)
    (hhead : prevU = true → cs.head? ≠ some '_') :
    collapseUnderscores cs prevU = cs := by
  induction cs generalizing prevU with
  | nil => rfl
  | cons c rest ih =>
    rw [collapseUnderscores]
    by_cases hc : c = '_'
    · subst hc
      have hpu : prevU = false := by
        cases prevU
        · rfl
        · exact absurd (show ('_' :: rest).head? = some '_' from rfl) (hhead rfl)
      subst hpu
      rw [if_pos rfl, if_neg (by simp)]
      congr 1
      apply ih
      · cases rest with
        | nil => rfl
        | cons c2 rest2 =>
          simp only [noDoubleUnderscore, Bool.and_eq_true] at h
          exact h.2
      · intro _
        cases rest with
        | nil => simp
        | cons c2 rest2 =>
          simp only [noDoubleUnderscore, Bool.and_eq_true] at h
          simp only [List.head?_cons, ne_eq, Option.some.injEq]
          intro hc2
          subst hc2
          simpa using h.1
    · rw [if_neg hc]
      congr 1
      apply ih
      · cases rest with
        | nil => rfl
        | cons c2 rest2 =>
          simp only [noDoubleUnderscore, Bool.and_eq_true] at h
          exact h.2
      · intro hfalse
        cases hfalse

/-- C8 (amended): a caller-supplied filename is sanitized by replacing
(not stripping) characters outside `[A-Za-z0-9._-]` with `_`, collapsing
runs of underscores, and ensuring a `.csv` suffix; every character of the
result is in the class; an already-clean `.csv` name passes through
verbatim; with no filename, `<collection>_export_<date>.csv` is
synthesized. -/
theorem c8_filename_amended :
    (∀ f i d, f ≠ "" →
      generateFilename (some f) i d =
        (let sanitized := String.mk (collapseUnderscores (replaceBadChars f.data) false)
         if strEndsWith sanitized ".csv" then sanitized else sanitized ++ ".csv") ∧
      strEndsWith (generateFilename (some f) i d) ".csv" = true ∧
      (generateFilename (some f) i d).data.all filenameCharOk = true) ∧
    (∀ f i d, f ≠ "" → f.data.all filenameCharOk = true →
      noDoubleUnderscore f.data = true → strEndsWith f ".csv" = true →
      generateFilename (some f) i d = f) ∧
    (∀ i d, generateFilename none i d = i ++ "_export_" ++ d ++ ".csv") := by
  refine ⟨?_, ?_, ?_⟩
  · intro f i d hf
    have hbase : (collapseUnderscores (replaceBadChars f.data) false).all
        filenameCharOk = true :=
      collapseUnderscores_all_ok _ _ (replaceBadChars_all_ok _)
    refine ⟨by simp [generateFilename, hf], ?_, ?_⟩
    · simp only [generateFilename, if_neg hf]
      split
      · assumption
      · exact strEndsWith_append _ _
    · simp only [generateFilename, if_neg hf]
      split
      · simpa using hbase
      · rw [String.data_append]
        simp only [List.all_append, Bool.and_eq_true]
        exact ⟨by simpa using hbase, by decide⟩
  · intro f i d hf hok hnd hcsv
    have h1 : replaceBadChars f.data = f.data := replaceBadChars_id _ hok
    have h2 : collapseUnderscores f.data false = f.data :=
      collapseUnderscores_id _ _ hnd (by intro hfalse; cases hfalse)
    simp only [generateFilename, if_neg hf, h1, h2]
    have hmk : String.mk f.data = f := rfl
    rw [hmk, if_pos hcsv]
  · intro i d
    rfl

theorem c8_filename_amended_witness :
    strEndsWith (generateFilename (some "report.csv") "idx" "d") ".csv" = true ∧
    (generateFilename (some "report.csv") "idx" "d").data.all filenameCharOk = true ∧
    generateFilename (some "report.csv") "idx" "d" = "report.csv" ∧
    generateFilename none "books" "2026-10-11" =
      "books" ++ "_export_" ++ "2026-10-11" ++ ".csv" :=
  ⟨(c8_filename_amended.1 "report.csv" "idx" "d" (by decide)).2.1,
   (c8_filename_amended.1 "report.csv" "idx" "d" (by decide)).2.2,
   c8_filename_amended.2.1 "report.csv" "idx" "d" (by decide) (by decide) (by decide)
     (by decide),
   c8_filename_amended.2.2 "books" "2026-10-11"⟩

/-- C8 counterexample: the code replaces disallowed characters with `_`;
stripping them (the claim's wording) gives a different name. -/
theorem c8_counterexample :
    generateFilename (some "a b") "idx" "2026-01-01" = "a_b.csv" ∧
    specStripFilename "a b" = "ab.csv" ∧
    generateFilename (some "a b") "idx" "2026-01-01" ≠ specStripFilename "a b" := by
  refine ⟨by decide, by decide, by decide⟩

/-- The `sensitiveKeys` array of `sanitizeError` (handlers.ts:179-187),
verbatim — note that the `apiKey` entry contains an uppercase letter. -/
def sensitiveKeys : List String :=
  ["password", "apiKey", "token", "secret", "auth", "authorization", "credential"]

/-- `sensitiveKeys.some(sensitive => key.toLowerCase().includes(sensitive))`
(handlers.ts:190): the key is lowercased, the pattern is not, and
`includes` is case-sensitive. -/
def isSensitiveKey (key : String) : Bool :=
  sensitiveKeys.any fun s => strIncludes (strToLower key) s

/-- The masking loop of `sanitizeError` (handlers.ts:189-193): the value
of each matched top-level key is replaced by `'***'`; values are never
descended into, so nested keys are not examined. -/
def sanitizeContext (ctx : List (String × JsonVal)) : List (String × JsonVal) :=
  ctx.map fun kv => if isSensitiveKey kv.1 then (kv.1, JsonVal.str "***") else kv

/-- The structured error response (handlers.ts:72-81; timestamp and
requestId elided — they carry no caller data). -/
structure ErrorResponse where
  code : String
  message : String
  statusCode : Nat
  context : Option (List (String × JsonVal))

/-- `handleError` (handlers.ts:90-110), `ElasticMCPError` branch: the
error's code, message, status and context are passed through verbatim. -/
def handleError (code message : String) (statusCode : Nat)
    (context : Option (List (String × JsonVal))) : ErrorResponse :=
  { code := code, message := message, statusCode := statusCode, context := context }

/-- `sanitizeError(error)` (handlers.ts:173-199). -/
def sanitizeError (e : ErrorResponse) : ErrorResponse :=
  match e.context with
  | none => e
  | some ctx => { e with context := some (sanitizeContext ctx) }

/-- The claim's notion of a sensitive key name ("password, apiKey, token,
secret, auth, authorization, credential"): the name contains one of the
listed words, compared case-insensitively (definition following the
claim's words, for comparison with the code's `isSensitiveKey`). -/
def specSensitiveName (key : String) : Bool :=
  sensitiveKeys.any fun s => strIncludes (strToLower key) (strToLower s)

mutual
/-- Whether any key at any nesting level of a context is sensitive in the
claim's sense — the property C9 quantifies over ("anywhere in the
context"). -/
def hasSensitiveKeyDeep : List (String × JsonVal) → Bool
  | [] => false
  | (k, v) :: rest => specSensitiveName k || hasSensitiveKeyDeepVal v ||
      hasSensitiveKeyDeep rest
termination_by kvs => (sizeOf kvs, 0)

/-- Sensitive-key search inside one value. -/
def hasSensitiveKeyDeepVal : JsonVal → Bool
  | .obj kvs => hasSensitiveKeyDeep kvs
  | .arr xs => hasSensitiveKeyDeepArr xs
  | _ => false
termination_by v => (sizeOf v, 0)

/-- Sensitive-key search inside an array. -/
def hasSensitiveKeyDeepArr : List JsonVal → Bool
  | [] => false
  | v :: rest => hasSensitiveKeyDeepVal v || hasSensitiveKeyDeepArr rest
termination_by xs => (sizeOf xs, 0)
end

/-- C9 (amended): `sanitizeError` masks exactly the matching top-level
keys of the context: a top-level key whose lowercased name contains one
of the patterns has its value replaced by `'***'`; every other entry —
including nested objects that themselves hold sensitive keys — is
returned unchanged; and the `apiKey` pattern can never fire, since the
key is lowercased while the pattern keeps its uppercase letter
(handleError passes the context through verbatim before sanitization). -/
theorem c9_sanitize_amended :
    (∀ ctx k v, (k, v) ∈ ctx → isSensitiveKey k = true →
      (k, JsonVal.str "***") ∈ sanitizeContext ctx) ∧
    (∀ ctx k v, (k, v) ∈ ctx → isSensitiveKey k = false →
      (k, v) ∈ sanitizeContext ctx) ∧
    (∀ code msg st ctx,
      (sanitizeError (handleError code msg st (some ctx))).context =
        some (sanitizeContext ctx)) ∧
    isSensitiveKey "userPassword" = true ∧
    sanitizeContext [("userPassword", .str "p")] =
      [("userPassword", JsonVal.str "***")] ∧
    isSensitiveKey "apiKey" = false ∧
    sanitizeContext [("apiKey", .str "k")] = [("apiKey", JsonVal.str "k")] := by
  refine ⟨?_, ?_, ?_, by decide, by rfl, by decide, by rfl⟩
  · intro ctx k v hmem hsens
    have : (fun kv : String × JsonVal =>
        if isSensitiveKey kv.1 then (kv.1, JsonVal.str "***") else kv) (k, v) =
        (k, JsonVal.str "***") := by simp [hsens]
    rw [sanitizeContext, ← this]
    exact List.mem_map_of_mem _ hmem
  · intro ctx k v hmem hsens
    have : (fun kv : String × JsonVal =>
        if isSensitiveKey kv.1 then (kv.1, JsonVal.str "***") else kv) (k, v) =
        (k, v) := by simp [hsens]
    rw [sanitizeContext, ← this]
    exact List.mem_map_of_mem _ hmem
  · intro code msg st ctx
    rfl

theorem c9_sanitize_amended_witness :
    ("password", JsonVal.str "***") ∈
      sanitizeContext [("password", JsonVal.str "hunter2")] ∧
    ("args", JsonVal.obj [("password", JsonVal.str "hunter2")]) ∈
      sanitizeContext [("args", JsonVal.obj [("password", JsonVal.str "hunter2")])] :=
  ⟨c9_sanitize_amended.1 [("password", JsonVal.str "hunter2")] "password"
     (JsonVal.str "hunter2") (by simp) (by decide),
   c9_sanitize_amended.2.1 [("args", JsonVal.obj [("password", JsonVal.str "hunter2")])]
     "args" (JsonVal.obj [("password", JsonVal.str "hunter2")]) (by simp) (by decide)⟩

/-- C9 counterexample: a context holding a sensitive key nested one level
down is returned by `sanitizeError` completely unchanged — the secret
value survives and no `'***'` appears; likewise a top-level `apiKey` key
is not masked, although `apiKey` is in the pattern list. -/
theorem c9_counterexample :
    hasSensitiveKeyDeep [("args", JsonVal.obj [("password", JsonVal.str "hunter2")])] =
      true ∧
    (sanitizeError (handleError "ELASTICSEARCH_ERROR" "Failed to export data to CSV" 500
        (some [("args", JsonVal.obj [("password", JsonVal.str "hunter2")])]))).context =
      some [("args", JsonVal.obj [("password", JsonVal.str "hunter2")])] ∧
    hasSensitiveKeyDeep [("apiKey", JsonVal.str "k")] = true ∧
    (sanitizeError (handleError "ELASTICSEARCH_ERROR" "Failed" 500
        (some [("apiKey", JsonVal.str "k")]))).context =
      some [("apiKey", JsonVal.str "k")] := by
  refine ⟨?_, ?_, ?_, ?_⟩
  · simp [hasSensitiveKeyDeep, hasSensitiveKeyDeepVal]
    decide
  · simp [sanitizeError, handleError, sanitizeContext]
    decide
  · simp [hasSensitiveKeyDeep, hasSensitiveKeyDeepVal]
    decide
  · simp [sanitizeError, handleError, sanitizeContext]
    decide

/-- A local file-system state: file name ↦ contents. -/
def FS : Type := List (String × String)

/-- Read a file's contents (`none` = absent). -/
def fsRead (fs : FS) (name : String) : Option String :=
  match fs.find? (fun p => p.1 == name) with
  | some p => some p.2
  | none => none

/-- Create or overwrite a file. -/
def fsWrite (fs : FS) (name content : String) : FS :=
  (name, content) :: fs.filter (fun p => !(p.1 == name))

/-- Delete a file. -/
def fsUnlink (fs : FS) (name : String) : FS :=
  fs.filter (fun p => !(p.1 == name))

/-- A file operation issued during finalization (for the trace). -/
inductive FileOp : Type where
  | readFile (p : String) : FileOp
  | writeFile (p : String) : FileOp
  | unlink (p : String) : FileOp
  | rename (src dst : String) : FileOp
deriving Repr, DecidableEq

/-- `compressFile(inputPath, outputPath)` (export-to-csv.ts:344-348): read
the whole input file, gzip it as a single unit (`gz` models the gzip
collaborator), write the compressed bytes to the output. `none` = the
read throws (input absent). -/
def compressFile (gz : String → String) (fs : FS) (inputPath outputPath : String) :
    Option (FS × List FileOp) :=
  match fsRead fs inputPath with
  | none => none
  | some data =>
    some (fsWrite fs outputPath (gz data),
      [.readFile inputPath, .writeFile outputPath])

/-- `fs.rename(src, dst)`. -/
def fsRename (fs : FS) (src dst : String) : Option (FS × List FileOp) :=
  match fsRead fs src with
  | none => none
  | some data => some (fsWrite (fsUnlink fs src) dst data, [.rename src dst])

/-- The finalization step of `execute` (export-to-csv.ts:84-98): under
`compress`, gzip `<filename>.tmp` into `<filename>.gz` and then unlink
the temp file; otherwise rename `<filename>.tmp` to `<filename>`.
Returns the resulting file-system state, the final artifact name, and
the trace of file operations. -/
def finalizeExport (gz : String → String) (fs : FS) (filename : String)
    (compress : Bool) : Option (FS × String × List FileOp) :=
  let tempFilename := filename ++ ".tmp"
  if compress then
    let finalFilename := filename ++ ".gz"
    match compressFile gz fs tempFilename finalFilename with
    | none => none
    | some (fs1, ops) =>
      some (fsUnlink fs1 tempFilename, finalFilename, ops ++ [.unlink tempFilename])
  else
    match fsRename fs tempFilename filename with
    | none => none
    | some (fs1, ops) => some (fs1, filename, ops)

theorem find?_filter_ne (l : List (String × String)) (name other : String)
    (h : other ≠ name) :
    (l.filter (fun p => !(p.1 == name))).find? (fun p => p.1 == other) =
    l.find? (fun p => p.1 == other) := by
  induction l with
  | nil => rfl
  | cons p rest ih =>
    rw [List.filter_cons]
    by_cases hp : p.1 = name
    · have h1 : (!(p.1 == name)) = false := by simp [hp]
      rw [h1]
      simp only [Bool.false_eq_true, if_false]
      rw [ih, List.find?_cons_of_neg]
      simp only [beq_iff_eq, hp]
      exact fun he => h he.symm
    · have h1 : (!(p.1 == name)) = true := by simp [hp]
      rw [h1]
      simp only [if_true]
      by_cases hq : p.1 = other
      · rw [List.find?_cons_of_pos _ (by simp [hq]),
          List.find?_cons_of_pos _ (by simp [hq])]
      · rw [List.find?_cons_of_neg _ (by simp [hq]),
          List.find?_cons_of_neg _ (by simp [hq])]
        exact ih

theorem fsRead_fsUnlink_self (fs : FS) (name : String) :
    fsRead (fsUnlink fs name) name = none := by
  have : (fsUnlink fs name).find? (fun p => p.1 == name) = none := by
    rw [List.find?_eq_none]
    intro a ha
    have := (List.mem_filter.mp ha).2
    simpa using this
  rw [fsRead, this]

theorem fsRead_fsUnlink_other (fs : FS) (name other : String) (h : other ≠ name) :
    fsRead (fsUnlink fs name) other = fsRead fs other := by
  rw [fsRead, fsRead, fsUnlink, find?_filter_ne _ _ _ h]

theorem fsRead_fsWrite_self (fs : FS) (name content : String) :
    fsRead (fsWrite fs name content) name = some content := by
  rw [fsRead, fsWrite, List.find?_cons_of_pos _ (by simp)]

theorem fsRead_fsWrite_other (fs : FS) (name content other : String) (h : other ≠ name) :
    fsRead (fsWrite fs name content) other = fsRead fs other := by
  rw [fsRead, fsWrite, List.find?_cons_of_neg _ (by simpa using fun he => h he.symm),
    find?_filter_ne _ _ _ h, fsRead]

theorem append_ne_of_length (a s t : String) (h : s.length ≠ t.length) :
    a ++ s ≠ a ++ t := by
  intro he
  have := congrArg String.length he
  simp only [String.length_append] at this
  omega

theorem append_ne_self_of_length (a s : String) (h : s.length ≠ 0) : a ++ s ≠ a := by
  intro he
  have h2 := congrArg String.length he
  rw [String.length_append] at h2
  omega

/-- C7: on a successful export, exactly one finalization path runs —
compress: read the temp file fully, write the compressed unit under
`<filename>.gz`, unlink the temp file; no compression: rename the temp
file to `<filename>` — and afterwards the temp file is gone while the
final artifact exists (they never both remain). -/
theorem c7_finalization (gz : String → String) (fs : FS) (filename : String)
    (compress : Bool) (d : String)
    (h : fsRead fs (filename ++ ".tmp") = some d) :
    ∃ fs1,
      finalizeExport gz fs filename compress =
        some (fs1,
          (if compress then filename ++ ".gz" else filename),
          (if compress then
            [FileOp.readFile (filename ++ ".tmp"), FileOp.writeFile (filename ++ ".gz"),
             FileOp.unlink (filename ++ ".tmp")]
           else [FileOp.rename (filename ++ ".tmp") filename])) ∧
      fsRead fs1 (filename ++ ".tmp") = none ∧
      fsRead fs1 (if compress then filename ++ ".gz" else filename) =
        some (if compress then gz d else d) := by
  have hgz : filename ++ ".gz" ≠ filename ++ ".tmp" := by
    apply append_ne_of_length
    decide
  have htmp : filename ++ ".tmp" ≠ filename := by
    apply append_ne_self_of_length
    decide
  cases compress with
  | true =>
    refine ⟨fsUnlink (fsWrite fs (filename ++ ".gz") (gz d)) (filename ++ ".tmp"),
      ?_, ?_, ?_⟩
    · simp only [finalizeExport, compressFile, h, if_true]
      rfl
    · exact fsRead_fsUnlink_self _ _
    · simp only [if_true]
      rw [fsRead_fsUnlink_other _ _ _ hgz, fsRead_fsWrite_self]
  | false =>
    refine ⟨fsWrite (fsUnlink fs (filename ++ ".tmp")) filename d, ?_, ?_, ?_⟩
    · simp only [finalizeExport, fsRename, h, Bool.false_eq_true, if_false]
    · rw [fsRead_fsWrite_other _ _ _ _ htmp, fsRead_fsUnlink_self]
    · simp only [Bool.false_eq_true, if_false]
      rw [fsRead_fsWrite_self]

theorem c7_finalization_witness :
    (∃ fs1,
      finalizeExport (fun s => s ++ "(gz)") [("out.csv.tmp", "rows")] "out.csv" true =
        some (fs1, (if true then "out.csv" ++ ".gz" else "out.csv"),
          (if true then
            [FileOp.readFile ("out.csv" ++ ".tmp"), FileOp.writeFile ("out.csv" ++ ".gz"),
             FileOp.unlink ("out.csv" ++ ".tmp")]
           else [FileOp.rename ("out.csv" ++ ".tmp") "out.csv"])) ∧
      fsRead fs1 ("out.csv" ++ ".tmp") = none ∧
      fsRead fs1 (if true then "out.csv" ++ ".gz" else "out.csv") =
        some (if true then "rows" ++ "(gz)" else "rows")) ∧
    (∃ fs1,
      finalizeExport (fun s => s) [("out.csv.tmp", "rows")] "out.csv" false =
        some (fs1, (if false then "out.csv" ++ ".gz" else "out.csv"),
          (if false then
            [FileOp.readFile ("out.csv" ++ ".tmp"), FileOp.writeFile ("out.csv" ++ ".gz"),
             FileOp.unlink ("out.csv" ++ ".tmp")]
           else [FileOp.rename ("out.csv" ++ ".tmp") "out.csv"])) ∧
      fsRead fs1 ("out.csv" ++ ".tmp") = none ∧
      fsRead fs1 (if false then "out.csv" ++ ".gz" else "out.csv") =
        some (if false then "rows" ++ "(gz)" else "rows")) :=
  ⟨c7_finalization (fun s => s ++ "(gz)") [("out.csv.tmp", "rows")] "out.csv" true "rows"
     (by decide),
   c7_finalization (fun s => s) [("out.csv.tmp", "rows")] "out.csv" false "rows"
     (by decide)⟩
